import Mathlib

/-!
Verification of the Arduino trigger box pulse-train scheduler
(src/src_mcu/src/main.cpp).

The core state machine is embedded shallowly: `uint32_t` values are
natural numbers reduced modulo `M = 2^32`, the Arduino clock `millis()`
becomes an explicit `now` argument, pin writes and serial prints become
an event list (`Ev.assert` carries the pulse index and the elapsed time
since train start, exactly the data printed by `go_HI`; `Ev.deassert`
is the pin-low transition performed by `go_LO`).

The tick function models the tail of `loop()` after command handling:
the `T_meas` duration check (present only on the Feather M4 variant,
modelled by `T_meas : Option Nat`) followed by the pulse-width and
period checks.  The command branches of `loop()` become the operations
`cmd_s` (toggle start/stop), `set_DT` and `set_T`.
-/

namespace TriggerBox

/-- Modulus of `uint32_t` arithmetic. -/
def M : Nat := 4294967296

/-- `#define PULSE_WIDTH 5` in main.cpp. -/
def PULSE_WIDTH : Nat := 5

/-- Wraparound-safe unsigned difference: C computes `a - b` on `uint32_t`
as `(a - b) mod 2^32`. -/
def sub32 (a b : Nat) : Nat := (a % M + (M - b % M)) % M

/-- The global mutable state of main.cpp: `DT`, `T_meas` (only on the
Feather M4 variant, hence optional), `f_running`, `t_start`,
`pulse_idx`, `f_HI`, `t_HI`. -/
structure St where
  DT : Nat
  T_meas : Option Nat
  f_running : Bool
  t_start : Nat
  pulse_idx : Nat
  f_HI : Bool
  t_HI : Nat
deriving DecidableEq, Repr

/-- Observable output events: `assert idx elapsed` is `go_HI` (pins HIGH
plus the serial line `# idx @ t = elapsed`); `deassert` is `go_LO`. -/
inductive Ev where
  | assert : Nat → Nat → Ev
  | deassert : Ev
deriving DecidableEq, Repr

/-- `go_HI()`: set `f_HI`, increment `pulse_idx`, drive pins HIGH and
report the pulse index and `now - t_start`. -/
def go_HI (now : Nat) (s : St) : St × List Ev :=
  let s2 : St := { s with f_HI := true, pulse_idx := (s.pulse_idx + 1) % M }
  (s2, [Ev.assert s2.pulse_idx (sub32 now s2.t_start)])

/-- `go_LO()`: clear `f_HI` and drive pins LOW. -/
def go_LO (s : St) : St × List Ev :=
  ({ s with f_HI := false }, [Ev.deassert])

/-- `start_train()`: `t_start = t_HI = now`, `pulse_idx = 0`, then `go_HI()`. -/
def start_train (now : Nat) (s : St) : St × List Ev :=
  go_HI now { s with t_start := now % M, t_HI := now % M, pulse_idx := 0 }

/-- `stop_train()`: unconditionally `go_LO()` (it does not touch `f_running`;
its callers clear that flag first). -/
def stop_train (s : St) : St × List Ev :=
  go_LO s

/-- The `s` command branch taken when the train was idle:
`f_running = true` followed by `start_train()`. -/
def op_start (now : Nat) (s : St) : St × List Ev :=
  start_train now { s with f_running := true }

/-- The `s` command branch taken when the train was running:
`f_running = false` followed by `stop_train()`. -/
def op_stop (s : St) : St × List Ev :=
  stop_train { s with f_running := false }

/-- The `s` serial command: toggle `f_running` and start or stop. -/
def cmd_s (now : Nat) (s : St) : St × List Ev :=
  if s.f_running = true then op_stop s else op_start now s

/-- Arduino's `constrain(v, lo, hi)` macro. -/
def constrain (v lo hi : Nat) : Nat :=
  if v < lo then lo else if v > hi then hi else v

/-- The `DT...` command: store the value into the `uint32_t` `DT`, then
`DT = constrain(DT, 10, pow(2, 32) - 1)`. -/
def set_DT (v : Nat) (s : St) : St :=
  { s with DT := constrain (v % M) 10 (M - 1) }

/-- The `T...` command (Feather M4 variant only): store into `T_meas`,
then `T_meas = constrain(T_meas, 10, pow(2, 32) - 1)`. -/
def set_T (v : Nat) (s : St) : St :=
  match s.T_meas with
  | none => s
  | some _ => { s with T_meas := some (constrain (v % M) 10 (M - 1)) }

/-- The duration guard at the top of the timing part of `loop()`:
`if (f_running && (now - t_start >= T_meas)) { f_running = false; stop_train(); }`
(compiled only on the Feather M4 variant). -/
def durPhase (now : Nat) (s : St) : St × List Ev :=
  match s.T_meas with
  | some T =>
    if s.f_running = true ∧ T ≤ sub32 now s.t_start then
      stop_train { s with f_running := false }
    else (s, [])
  | none => (s, [])

/-- The pulse logic of `loop()`: under `if (f_running)`, first
`if (f_HI && (now - t_HI >= PULSE_WIDTH)) go_LO();` and then
`if (now - t_HI >= DT) { t_HI += DT; go_HI(); }`. -/
def pulsePhase (now : Nat) (s : St) : St × List Ev :=
  if s.f_running = true then
    let p2 := if s.f_HI = true ∧ PULSE_WIDTH ≤ sub32 now s.t_HI then go_LO s else (s, [])
    let p3 :=
      if p2.1.DT ≤ sub32 now p2.1.t_HI then
        go_HI now { p2.1 with t_HI := (p2.1.t_HI + p2.1.DT) % M }
      else (p2.1, [])
    (p3.1, p2.2 ++ p3.2)
  else (s, [])

/-- One pass through the timing tail of `loop()`: sample `now = millis()`
(reduced mod 2^32), run the duration guard, then the pulse logic. -/
def tick (nowArg : Nat) (s : St) : St × List Ev :=
  let now := nowArg % M
  let p1 := durPhase now s
  let p := pulsePhase now p1.1
  (p.1, p1.2 ++ p.2)

/-- Commands and clock samples that can drive the system. -/
inductive Act where
  | s : Nat → Act
  | setDT : Nat → Act
  | setT : Nat → Act
  | tick : Nat → Act
deriving DecidableEq, Repr

/-- One `loop()`-level action. -/
def step (st : St) (a : Act) : St × List Ev :=
  match a with
  | Act.s now => cmd_s now st
  | Act.setDT v => (set_DT v st, [])
  | Act.setT v => (set_T v st, [])
  | Act.tick now => tick now st

/-- Run a list of actions, concatenating the emitted events. -/
def runA (st : St) : List Act → St × List Ev
  | [] => (st, [])
  | a :: rest =>
    let p := step st a
    let q := runA p.1 rest
    (q.1, p.2 ++ q.2)

/-- Initial globals: `DT = 1000`, `T_meas = 8*3600*1000` on the Feather
variant, everything else zero / false. -/
def init (withDuration : Bool) : St :=
  { DT := 1000
    T_meas := if withDuration then some 28800000 else none
    f_running := false
    t_start := 0
    pulse_idx := 0
    f_HI := false
    t_HI := 0 }

/-- Is an event an assert (`go_HI`) notification? -/
def isAssert : Ev → Bool
  | Ev.assert _ _ => true
  | Ev.deassert => false

/-- Number of assert notifications in an event list. -/
def countAsserts (l : List Ev) : Nat := (l.filter isAssert).length

/-- Elapsed-time stamps carried by the assert notifications, in order. -/
def assertTimes : List Ev → List Nat
  | [] => []
  | Ev.assert _ e :: rest => e :: assertTimes rest
  | Ev.deassert :: rest => assertTimes rest

/-- Scanning an event list with the knowledge whether the output was HIGH
before it: `true` iff no assert notification immediately follows another
assert notification (with no intervening deassert). -/
def okFrom : Bool → List Ev → Bool
  | _, [] => true
  | prev, Ev.assert _ _ :: rest => !prev && okFrom true rest
  | _, Ev.deassert :: rest => okFrom false rest

/-- The output level after an event list, given the level before it. -/
def lastHI : Bool → List Ev → Bool
  | p, [] => p
  | _, Ev.assert _ _ :: rest => lastHI true rest
  | _, Ev.deassert :: rest => lastHI false rest

/-- Does an action list contain a start (an `s` toggle)? -/
def hasS : List Act → Bool
  | [] => false
  | Act.s _ :: _ => true
  | _ :: rest => hasS rest

/-! ### Arithmetic facts about wraparound-safe subtraction -/

theorem sub32_shift (a b c : Nat) : sub32 ((a + c) % M) ((b + c) % M) = sub32 a b := by
  simp only [sub32, M]
  omega

theorem sub32_mod_left (a b : Nat) : sub32 (a % M) b = sub32 a b := by
  simp only [sub32, M]
  omega

theorem sub32_add_small (b j : Nat) (hj : j < M) : sub32 ((b + j) % M) b = j := by
  simp only [sub32, M] at *
  omega

/-! ### Branch characterizations of the two phases of `tick` -/

theorem durPhase_eq (now : Nat) (s : St) :
    durPhase now s =
      match s.T_meas with
      | some T =>
        if s.f_running = true ∧ T ≤ sub32 now s.t_start then
          ({ s with f_running := false, f_HI := false }, [Ev.deassert])
        else (s, [])
      | none => (s, []) := by
  obtain ⟨dt, tm, fr, ts, pi, fh, th⟩ := s
  cases tm <;> simp only [durPhase, stop_train, go_LO]

theorem pulsePhase_eq (now : Nat) (s : St) :
    pulsePhase now s =
      if s.f_running = true then
        if s.f_HI = true ∧ PULSE_WIDTH ≤ sub32 now s.t_HI then
          if s.DT ≤ sub32 now s.t_HI then
            ({ s with f_HI := true, pulse_idx := (s.pulse_idx + 1) % M,
                      t_HI := (s.t_HI + s.DT) % M },
             [Ev.deassert, Ev.assert ((s.pulse_idx + 1) % M) (sub32 now s.t_start)])
          else ({ s with f_HI := false }, [Ev.deassert])
        else
          if s.DT ≤ sub32 now s.t_HI then
            ({ s with f_HI := true, pulse_idx := (s.pulse_idx + 1) % M,
                      t_HI := (s.t_HI + s.DT) % M },
             [Ev.assert ((s.pulse_idx + 1) % M) (sub32 now s.t_start)])
          else (s, [])
      else (s, []) := by
  obtain ⟨dt, tm, fr, ts, pi, fh, th⟩ := s
  simp only [pulsePhase, go_LO, go_HI]
  split_ifs <;> simp_all

theorem tick_eq (nowArg : Nat) (s : St) :
    tick nowArg s =
      ((pulsePhase (nowArg % M) (durPhase (nowArg % M) s).1).1,
       (durPhase (nowArg % M) s).2 ++ (pulsePhase (nowArg % M) (durPhase (nowArg % M) s).1).2) :=
  rfl

/-- When the duration guard does not stop the train, `durPhase` is the identity. -/
theorem durPhase_no_stop (now : Nat) (s : St)
    (h : (durPhase now s).1.f_running = true) : durPhase now s = (s, []) := by
  rw [durPhase_eq] at *
  cases htm : s.T_meas with
  | none => simp [htm] at *
  | some T =>
    simp only [htm] at h ⊢
    split_ifs at h ⊢ <;> simp_all

/-! ### Claim theorems -/

/-- Claim C1: whenever the periodic branch of `tick` fires (the train is
still running after the duration guard and the wraparound-safe difference
`now - t_HI` has reached `DT`), the new phase reference `t_HI` equals the
old `t_HI` plus exactly `DT` (mod 2^32); it is never set to the sampled
clock value. -/
theorem C1_phase_advances_by_period (s : St) (nowArg : Nat)
    (hrun : (durPhase (nowArg % M) s).1.f_running = true)
    (hfire : s.DT ≤ sub32 (nowArg % M) s.t_HI) :
    (tick nowArg s).1.t_HI = (s.t_HI + s.DT) % M := by
  have hns := durPhase_no_stop (nowArg % M) s hrun
  have hr : s.f_running = true := by rw [hns] at hrun; exact hrun
  rw [tick_eq, hns]
  rw [pulsePhase_eq]
  simp only [hr, if_true, hfire, if_pos]
  split_ifs <;> rfl

/-- Concrete state for the C1 witness: a running train, `DT = 1000`,
phase reference at 0, sampled at clock 1500. -/
def wC1 : St :=
  { DT := 1000, T_meas := none, f_running := true, t_start := 0,
    pulse_idx := 1, f_HI := false, t_HI := 0 }

/-- Witness for C1 at a concrete input. -/
theorem C1_witness : (tick 1500 wC1).1.t_HI = (wC1.t_HI + wC1.DT) % M :=
  C1_phase_advances_by_period wC1 1500 (by decide) (by decide)

/-- Claim C3: the concrete scenario of the spec: `DT = 1000`,
`PULSE_WIDTH = 5`, start at clock 0 immediately asserts pulse #1
(and the remainder of that same loop pass emits nothing, so pulse #1 is
not double-counted); the tick at 5 de-asserts; at 1000 asserts pulse #2;
at 1005 de-asserts; at 2000 asserts pulse #3. -/
theorem C3_concrete_scenario :
    (runA (init false)
        [Act.s 0, Act.tick 0, Act.tick 5, Act.tick 1000, Act.tick 1005, Act.tick 2000]).2
      = [Ev.assert 1 0, Ev.deassert, Ev.assert 2 1000, Ev.deassert, Ev.assert 3 2000] := by
  decide

/-- Counterexample to claim C2 as stated: with the valid period
`DT = 1000` and ticks at the irregular, coarser-than-period clock values
1500 and 3100, the assert notifications carry train times 0, 1500 and
3100, whose successive intervals are 1500 and 1600 — not the period.
The code re-asserts at the tick that discovers the boundary, so the
notification times inherit the polling lateness even though the phase
reference itself stays exact. -/
theorem C2_counterexample :
    (init false).DT = 1000 ∧
    assertTimes (runA (init false) [Act.s 0, Act.tick 1500, Act.tick 3100]).2
      = [0, 1500, 3100] ∧
    ¬ (1500 - 0 = 1000 ∧ 3100 - 1500 = 1000) := by
  decide

theorem countAsserts_append (l1 l2 : List Ev) :
    countAsserts (l1 ++ l2) = countAsserts l1 + countAsserts l2 := by
  simp [countAsserts, List.filter_append]

/-- Per-tick accounting: `DT` is untouched, at most one assert is emitted,
and `t_HI` advances by exactly one `DT` per emitted assert (mod 2^32). -/
theorem tick_accounting (nowArg : Nat) (s : St) :
    (tick nowArg s).1.t_HI % M
        = (s.t_HI + countAsserts (tick nowArg s).2 * s.DT) % M
    ∧ (tick nowArg s).1.DT = s.DT
    ∧ countAsserts (tick nowArg s).2 ≤ 1 := by
  rw [tick_eq, durPhase_eq, pulsePhase_eq]
  rcases htm : s.T_meas with _ | T <;>
    simp only [htm] <;>
    split_ifs <;>
    simp [countAsserts, List.filter, isAssert, M]

/-- Over any sequence of ticks, `DT` is constant and the phase reference
advances by exactly `DT` for each assert notification emitted. -/
theorem runTicks_accounting (nows : List Nat) (s : St) :
    (runA s (nows.map Act.tick)).1.t_HI % M
        = (s.t_HI + countAsserts (runA s (nows.map Act.tick)).2 * s.DT) % M
    ∧ (runA s (nows.map Act.tick)).1.DT = s.DT := by
  induction nows generalizing s with
  | nil => simp [runA, countAsserts]
  | cons t rest ih =>
    simp only [List.map, runA, step, countAsserts_append]
    obtain ⟨h1, hDT, -⟩ := tick_accounting t s
    obtain ⟨h2, h2DT⟩ := ih (tick t s).1
    rw [hDT] at h2 h2DT
    refine ⟨?_, h2DT⟩
    have e1 : Nat.ModEq M ((tick t s).1.t_HI)
        (s.t_HI + countAsserts (tick t s).2 * s.DT) := h1
    have e2 : Nat.ModEq M ((runA (tick t s).1 (rest.map Act.tick)).1.t_HI)
        ((tick t s).1.t_HI + countAsserts (runA (tick t s).1 (rest.map Act.tick)).2 * s.DT) := h2
    have e3 := e2.trans (e1.add_right _)
    calc (runA (tick t s).1 (rest.map Act.tick)).1.t_HI % M
        = (s.t_HI + countAsserts (tick t s).2 * s.DT
            + countAsserts (runA (tick t s).1 (rest.map Act.tick)).2 * s.DT) % M := by
          have := e3
          simpa [Nat.ModEq, Nat.add_comm, Nat.add_assoc, Nat.add_left_comm] using this
      _ = (s.t_HI + (countAsserts (tick t s).2
            + countAsserts (runA (tick t s).1 (rest.map Act.tick)).2) * s.DT) % M := by
          ring_nf

/-- Amended claim C2: what is exactly periodic is the phase reference,
not the clock value at which the notification happens to be emitted.
Over any tick sequence the phase reference `t_HI` advances by exactly
`DT` per assert notification (mod 2^32), so the k-th assert after any
state has phase reference `t_HI + k * DT`: successive pulses are
scheduled exactly `period_ms` apart with no accumulated drift, while the
emission clock values lag by at most the polling latency. -/
theorem C2_phase_spacing_exact (s : St) (nows : List Nat) :
    (runA s (nows.map Act.tick)).1.t_HI % M
      = (s.t_HI + countAsserts (runA s (nows.map Act.tick)).2 * s.DT) % M :=
  (runTicks_accounting nows s).1

/-- Per-tick case split for the phase reference. -/
theorem tick_t_HI_cases (nowArg : Nat) (s : St) :
    (tick nowArg s).1.t_HI = s.t_HI ∨ (tick nowArg s).1.t_HI = (s.t_HI + s.DT) % M := by
  rw [tick_eq, durPhase_eq, pulsePhase_eq]
  rcases htm : s.T_meas with _ | T <;>
    simp only [htm] <;>
    split_ifs <;>
    simp

/-- Claim C10: a single `tick` emits at most one assert notification and
advances the phase reference by at most one `DT` (either unchanged or
`t_HI + DT` mod 2^32, never a jump to the sampled clock); moreover when
the train survives the duration guard and at least one full period has
elapsed since the phase reference, exactly one assert is emitted — so a
backlog of missed pulses is worked off one pulse per tick until the
phase reference catches up with the clock. -/
theorem C10_one_pulse_per_tick (s : St) (nowArg : Nat) :
    countAsserts (tick nowArg s).2 ≤ 1 ∧
    ((tick nowArg s).1.t_HI = s.t_HI ∨ (tick nowArg s).1.t_HI = (s.t_HI + s.DT) % M) ∧
    ((durPhase (nowArg % M) s).1.f_running = true → s.DT ≤ sub32 (nowArg % M) s.t_HI →
      countAsserts (tick nowArg s).2 = 1) := by
  refine ⟨(tick_accounting nowArg s).2.2, tick_t_HI_cases nowArg s, ?_⟩
  intro hrun hfire
  have hns := durPhase_no_stop (nowArg % M) s hrun
  have hr : s.f_running = true := by rw [hns] at hrun; exact hrun
  rw [tick_eq, hns, pulsePhase_eq]
  simp only [hr, if_true, hfire, if_pos]
  split_ifs <;> simp [countAsserts, List.filter, isAssert]

/-- Concrete state for the C10 witness. -/
def wC10 : St :=
  { DT := 1000, T_meas := none, f_running := true, t_start := 0,
    pulse_idx := 2, f_HI := false, t_HI := 1000 }

/-- Witness for C10 at a concrete input, discharging the inner hypotheses
of the catch-up conjunct. -/
theorem C10_witness :
    countAsserts (tick 2500 wC10).2 ≤ 1 ∧ countAsserts (tick 2500 wC10).2 = 1 :=
  ⟨(C10_one_pulse_per_tick wC10 2500).1,
   (C10_one_pulse_per_tick wC10 2500).2.2 (by decide) (by decide)⟩

/-- Shift every stored timestamp of a state by `c` milliseconds (mod 2^32). -/
def shiftSt (c : Nat) (s : St) : St :=
  { s with t_start := (s.t_start + c) % M, t_HI := (s.t_HI + c) % M }

theorem add_mod_right_swap (x y z : Nat) :
    ((x + y) % M + z) % M = ((x + z) % M + y) % M := by
  simp only [M]
  omega

theorem durPhase_shift (c a : Nat) (s : St) :
    durPhase ((a + c) % M) (shiftSt c s)
      = (shiftSt c (durPhase a s).1, (durPhase a s).2) := by
  obtain ⟨dt, tm, fr, ts, pi, fh, th⟩ := s
  rw [durPhase_eq, durPhase_eq]
  cases tm <;> simp only [shiftSt, sub32_shift] <;> split_ifs <;> simp_all [shiftSt]

theorem pulsePhase_shift (c a : Nat) (s : St) :
    pulsePhase ((a + c) % M) (shiftSt c s)
      = (shiftSt c (pulsePhase a s).1, (pulsePhase a s).2) := by
  obtain ⟨dt, tm, fr, ts, pi, fh, th⟩ := s
  rw [pulsePhase_eq, pulsePhase_eq]
  simp only [shiftSt, sub32_shift]
  split_ifs <;> simp_all [shiftSt, add_mod_right_swap] <;> (congr 1; omega)

theorem tick_shift (c nowArg : Nat) (s : St) :
    tick ((nowArg + c) % M) (shiftSt c s)
      = (shiftSt c (tick nowArg s).1, (tick nowArg s).2) := by
  rw [tick_eq, tick_eq]
  have hm : ((nowArg + c) % M) % M = (nowArg % M + c) % M := by
    simp only [M]; omega
  rw [hm, durPhase_shift, pulsePhase_shift]

/-- Claim C4: every timing decision in `tick` is taken through the
wraparound-safe difference `sub32`, so the behaviour is invariant under
shifting all clock samples and stored timestamps by any constant
`c` (mod 2^32).  In particular a train whose start precedes the
2^32 → 0 clock crossing (obtained by shifting a small-time run close to
the wrap boundary) performs its assert/de-assert transitions at exactly
the same offsets from the train start, with identical notifications. -/
theorem C4_shift_invariance (c : Nat) (nows : List Nat) (s : St) :
    runA (shiftSt c s) ((nows.map (fun t => (t + c) % M)).map Act.tick)
      = (shiftSt c (runA s (nows.map Act.tick)).1, (runA s (nows.map Act.tick)).2) := by
  induction nows generalizing s with
  | nil => simp [runA]
  | cons t rest ih =>
    simp only [List.map, runA, step]
    rw [tick_shift, ih (tick t s).1]

/-- A tick in the idle state is a no-op: both guard chains require `f_running`. -/
theorem tick_stopped (nowArg : Nat) (s : St) (hr : s.f_running = false) :
    tick nowArg s = (s, []) := by
  rw [tick_eq, durPhase_eq, pulsePhase_eq]
  rcases htm : s.T_meas with _ | T <;> simp [htm, hr]

theorem okFrom_append (p : Bool) (l1 l2 : List Ev) :
    okFrom p (l1 ++ l2) = (okFrom p l1 && okFrom (lastHI p l1) l2) := by
  induction l1 generalizing p with
  | nil => simp [okFrom, lastHI]
  | cons e rest ih =>
    cases e <;> simp [okFrom, lastHI, ih, Bool.and_assoc]

theorem lastHI_append (p : Bool) (l1 l2 : List Ev) :
    lastHI p (l1 ++ l2) = lastHI (lastHI p l1) l2 := by
  induction l1 generalizing p with
  | nil => simp [lastHI]
  | cons e rest ih =>
    cases e <;> simp [lastHI, ih]

/-- Behavior of a single tick needed for the alternation and idleness
invariants: its event block is internally alternation-safe given the
output level before it, the level after the block is the new `f_HI`,
`DT` is untouched, and (not running → not HIGH) is preserved. -/
theorem tick_behavior (nowArg : Nat) (s : St) (hDT : 10 ≤ s.DT) :
    okFrom s.f_HI (tick nowArg s).2 = true ∧
    lastHI s.f_HI (tick nowArg s).2 = (tick nowArg s).1.f_HI ∧
    (tick nowArg s).1.DT = s.DT ∧
    ((s.f_running = false → s.f_HI = false) →
      ((tick nowArg s).1.f_running = false → (tick nowArg s).1.f_HI = false)) := by
  obtain ⟨dt, tm, fr, ts, pi, fh, th⟩ := s
  rw [tick_eq, durPhase_eq]
  rcases tm with _ | T <;> cases fr <;> cases fh <;>
    simp only [] <;>
    rw [pulsePhase_eq] <;>
    split_ifs <;>
    simp_all [okFrom, lastHI, PULSE_WIDTH] <;>
    omega

theorem constrain_lower (x : Nat) : 10 ≤ constrain x 10 (M - 1) := by
  simp only [constrain, M]
  split_ifs <;> omega

/-- One `loop()`-level action preserves the alternation bookkeeping, the
`DT ≥ 10` clamp invariant and the (not running → not HIGH) invariant. -/
theorem step_inv (a : Act) (s : St) (hDT : 10 ≤ s.DT)
    (hNI : s.f_running = false → s.f_HI = false) :
    okFrom s.f_HI (step s a).2 = true ∧
    lastHI s.f_HI (step s a).2 = (step s a).1.f_HI ∧
    10 ≤ (step s a).1.DT ∧
    ((step s a).1.f_running = false → (step s a).1.f_HI = false) := by
  cases a with
  | s now =>
    simp only [step, cmd_s]
    by_cases hr : s.f_running = true
    · simp only [hr, if_true]
      refine ⟨?_, ?_, hDT, ?_⟩ <;>
        simp [op_stop, stop_train, go_LO, okFrom, lastHI]
    · have hr0 : s.f_running = false := by simpa using hr
      have hh := hNI hr0
      simp only [hr0, Bool.false_eq_true, if_false]
      refine ⟨?_, ?_, hDT, ?_⟩ <;>
        simp [op_start, start_train, go_HI, okFrom, lastHI, hh]
  | setDT v =>
    refine ⟨rfl, rfl, constrain_lower _, ?_⟩
    intro h
    exact hNI h
  | setT v =>
    obtain ⟨dt, tm, fr, ts, pi, fh, th⟩ := s
    cases tm <;>
      (refine ⟨rfl, rfl, ?_, ?_⟩ <;> simp_all [step, set_T])
  | tick now =>
    obtain ⟨h1, h2, h3, h4⟩ := tick_behavior now s hDT
    exact ⟨h1, h2, h3 ▸ hDT, h4 hNI⟩

/-- The alternation and idleness invariants hold along any run. -/
theorem run_inv (acts : List Act) (s : St) (hDT : 10 ≤ s.DT)
    (hNI : s.f_running = false → s.f_HI = false) :
    okFrom s.f_HI (runA s acts).2 = true ∧
    lastHI s.f_HI (runA s acts).2 = (runA s acts).1.f_HI ∧
    10 ≤ (runA s acts).1.DT ∧
    ((runA s acts).1.f_running = false → (runA s acts).1.f_HI = false) := by
  induction acts generalizing s with
  | nil => exact ⟨rfl, rfl, hDT, hNI⟩
  | cons a rest ih =>
    obtain ⟨h1, h2, h3, h4⟩ := step_inv a s hDT hNI
    obtain ⟨g1, g2, g3, g4⟩ := ih (step s a).1 h3 h4
    refine ⟨?_, ?_, g3, g4⟩
    · simp only [runA]
      rw [okFrom_append, h2]
      simp [h1, g1]
    · simp only [runA]
      rw [lastHI_append, h2]
      exact g2

/-- Claim C7: over any run from the initial state (either hardware
variant), the emitted notification stream never contains two assert
notifications without an intervening de-assert: within one tick the
de-assert check runs before the periodic re-assert check, and the
`DT ≥ 10 > PULSE_WIDTH` clamp keeps the two from colliding. -/
theorem C7_no_consecutive_asserts (b : Bool) (acts : List Act) :
    okFrom false (runA (init b) acts).2 = true := by
  have h := run_inv acts (init b) (by simp [init]) (by intro h; simp [init])
  simpa [init] using h.1

/-- While idle (`f_running = false`, `f_HI = false`) and no start command
arrives, every action is a no-op on the flags and nothing is asserted. -/
theorem run_no_start (acts : List Act) (s : St)
    (hr : s.f_running = false) (hh : s.f_HI = false) (hns : hasS acts = false) :
    (runA s acts).1.f_running = false ∧ (runA s acts).1.f_HI = false ∧
    countAsserts (runA s acts).2 = 0 := by
  induction acts generalizing s with
  | nil => exact ⟨hr, hh, rfl⟩
  | cons a rest ih =>
    cases a with
    | s now => simp [hasS] at hns
    | setDT v =>
      have hns' : hasS rest = false := by simpa [hasS] using hns
      have h := ih (set_DT v s) hr hh hns'
      simpa [runA, step, countAsserts_append] using h
    | setT v =>
      have hns' : hasS rest = false := by simpa [hasS] using hns
      have hr' : (set_T v s).f_running = false := by
        obtain ⟨dt, tm, fr, ts, pi, fh, th⟩ := s
        cases tm <;> simpa [set_T] using hr
      have hh' : (set_T v s).f_HI = false := by
        obtain ⟨dt, tm, fr, ts, pi, fh, th⟩ := s
        cases tm <;> simpa [set_T] using hh
      have h := ih (set_T v s) hr' hh' hns'
      simpa [runA, step, countAsserts_append] using h
    | tick now =>
      have hns' : hasS rest = false := by simpa [hasS] using hns
      have h := ih s hr hh hns'
      have ht := tick_stopped now s hr
      simp only [runA, step, ht, countAsserts_append]
      simpa [countAsserts] using h

/-- `set_T` touches neither `f_running` nor `f_HI`. -/
theorem set_T_flags (v : Nat) (s : St) :
    (set_T v s).f_running = s.f_running ∧ (set_T v s).f_HI = s.f_HI := by
  obtain ⟨dt, tm, fr, ts, pi, fh, th⟩ := s
  cases tm <;> simp [set_T]

/-- `tick` preserves the (not running → not HIGH) invariant from any state. -/
theorem tick_NI (nowArg : Nat) (s : St)
    (hNI : s.f_running = false → s.f_HI = false) :
    (tick nowArg s).1.f_running = false → (tick nowArg s).1.f_HI = false := by
  obtain ⟨dt, tm, fr, ts, pi, fh, th⟩ := s
  rw [tick_eq, durPhase_eq]
  rcases tm with _ | T <;> cases fr <;> cases fh <;>
    simp only [] <;>
    rw [pulsePhase_eq] <;>
    split_ifs <;>
    simp_all

/-- Claim C8: the invariant (not running → output de-asserted) holds
initially and is preserved by start, stop, `set_DT`, `set_T` and `tick`;
and once stopped, as long as no start command arrives, the output stays
de-asserted and no assert notification is ever emitted. -/
theorem C8_idle_never_asserted (b : Bool) (s : St) (nowArg v : Nat) (acts : List Act)
    (hNI : s.f_running = false → s.f_HI = false)
    (hacts : hasS acts = false) :
    ((init b).f_running = false → (init b).f_HI = false) ∧
    ((op_start nowArg s).1.f_running = false → (op_start nowArg s).1.f_HI = false) ∧
    ((op_stop s).1.f_running = false → (op_stop s).1.f_HI = false) ∧
    ((set_DT v s).f_running = false → (set_DT v s).f_HI = false) ∧
    ((set_T v s).f_running = false → (set_T v s).f_HI = false) ∧
    ((tick nowArg s).1.f_running = false → (tick nowArg s).1.f_HI = false) ∧
    (runA (op_stop s).1 acts).1.f_HI = false ∧
    countAsserts (runA (op_stop s).1 acts).2 = 0 := by
  have hstop_r : (op_stop s).1.f_running = false := rfl
  have hstop_h : (op_stop s).1.f_HI = false := rfl
  obtain ⟨-, hfh, hcnt⟩ := run_no_start acts (op_stop s).1 hstop_r hstop_h hacts
  refine ⟨?_, ?_, fun _ => hstop_h, fun h => hNI h, ?_,
    tick_NI nowArg s hNI, hfh, hcnt⟩
  · intro h
    simp [init]
  · intro h
    simp [op_start, start_train, go_HI] at h
  · obtain ⟨hfr, hfh2⟩ := set_T_flags v s
    intro h
    rw [hfh2]
    exact hNI (hfr ▸ h)

/-- Claim C5: on the duration-limited (Feather M4) variant, any tick at
which the wraparound-safe elapsed time since train start has reached the
configured `T_meas` clears `f_running`, de-asserts the output, emits
only the de-assert notification, and — as long as no start command
follows — no assert notification is ever emitted afterwards. -/
theorem C5_duration_stop (s : St) (nowArg D : Nat) (acts : List Act)
    (hT : s.T_meas = some D) (hrun : s.f_running = true)
    (hdur : D ≤ sub32 (nowArg % M) s.t_start) (hacts : hasS acts = false) :
    (tick nowArg s).1.f_running = false ∧
    (tick nowArg s).1.f_HI = false ∧
    (tick nowArg s).2 = [Ev.deassert] ∧
    countAsserts (runA (tick nowArg s).1 acts).2 = 0 ∧
    (runA (tick nowArg s).1 acts).1.f_HI = false := by
  have hstop : durPhase (nowArg % M) s
      = ({ s with f_running := false, f_HI := false }, [Ev.deassert]) := by
    rw [durPhase_eq, hT]
    simp [hrun, hdur]
  have htick : tick nowArg s
      = ({ s with f_running := false, f_HI := false }, [Ev.deassert]) := by
    rw [tick_eq, hstop, pulsePhase_eq]
    simp
  rw [htick]
  obtain ⟨h1, h2, h3⟩ :=
    run_no_start acts { s with f_running := false, f_HI := false } rfl rfl hacts
  exact ⟨rfl, rfl, rfl, h3, h2⟩

/-- Concrete state for the C5 witness: running train on the duration
variant with `T_meas = 10`, sampled past the deadline. -/
def wC5 : St :=
  { DT := 1000, T_meas := some 10, f_running := true, t_start := 0,
    pulse_idx := 1, f_HI := true, t_HI := 0 }

/-- Witness for C5 at a concrete input. -/
theorem C5_witness :
    (tick 20 wC5).1.f_running = false ∧
    (tick 20 wC5).1.f_HI = false ∧
    (tick 20 wC5).2 = [Ev.deassert] ∧
    countAsserts (runA (tick 20 wC5).1 [Act.tick 25]).2 = 0 ∧
    (runA (tick 20 wC5).1 [Act.tick 25]).1.f_HI = false :=
  C5_duration_stop wC5 20 10 [Act.tick 25] rfl rfl (by decide) (by decide)

/-- Counterexample to claim C6 as stated: ticks at clock 0 (start), 4
and 8 poll at a 4 ms rate, finer than the 5 ms pulse width, yet the
pulse asserted at clock 0 is still HIGH at clock 4 and only de-asserted
at the tick at clock 8: its HIGH duration is 8 ms, not `PULSE_WIDTH`.
Polling merely finer than the pulse width only bounds the excess; it
does not make the HIGH time exact. -/
theorem C6_counterexample :
    (init false).DT = 1000 ∧ (4 : Nat) < PULSE_WIDTH ∧
    (runA (init false) [Act.s 0, Act.tick 4]).1.f_HI = true ∧
    (runA (init false) [Act.s 0, Act.tick 4, Act.tick 8]).1.f_HI = false ∧
    (runA (init false) [Act.s 0, Act.tick 4, Act.tick 8]).2
      = [Ev.assert 1 0, Ev.deassert] ∧
    (8 : Nat) - 0 ≠ PULSE_WIDTH := by
  decide

/-- Amended claim C6: when the output was asserted at clock `t` with the
phase reference equal to `t` (which is what every-millisecond polling
produces) and the train keeps running, ticks at `t+1 … t+4` leave the
output HIGH and unchanged, and the tick at `t+5` de-asserts it: the HIGH
duration is exactly `PULSE_WIDTH` when `tick` is polled every
millisecond, for every period `DT ≥ 10`. -/
theorem C6_pulse_width_exact (s : St) (t : Nat)
    (hrun : s.f_running = true) (hHI : s.f_HI = true) (ht : s.t_HI = t)
    (hDT : 10 ≤ s.DT) (hT : s.T_meas = none) :
    tick ((t + 1) % M) s = (s, []) ∧
    tick ((t + 2) % M) s = (s, []) ∧
    tick ((t + 3) % M) s = (s, []) ∧
    tick ((t + 4) % M) s = (s, []) ∧
    tick ((t + 5) % M) s = ({ s with f_HI := false }, [Ev.deassert]) := by
  have hd : ∀ x, durPhase x s = (s, []) := by
    intro x
    rw [durPhase_eq, hT]
  have key : ∀ j : Nat, j < M → sub32 (((t + j) % M) % M) s.t_HI = j := by
    intro j hj
    rw [ht, sub32_mod_left, sub32_add_small _ _ hj]
  have hMlarge : ∀ j : Nat, j ≤ 5 → j < M := by
    intro j hj
    simp only [M]
    omega
  have noop : ∀ j : Nat, 1 ≤ j → j ≤ 4 → tick ((t + j) % M) s = (s, []) := by
    intro j h1 h4
    rw [tick_eq, hd, pulsePhase_eq, key j (hMlarge j (by omega))]
    have c1 : ¬(s.f_HI = true ∧ PULSE_WIDTH ≤ j) := by
      simp only [PULSE_WIDTH]
      rintro ⟨-, h5⟩
      omega
    have c2 : ¬(s.DT ≤ j) := by omega
    simp [hrun, c1, c2]
  refine ⟨noop 1 (by omega) (by omega), noop 2 (by omega) (by omega),
    noop 3 (by omega) (by omega), noop 4 (by omega) (by omega), ?_⟩
  rw [tick_eq, hd, pulsePhase_eq, key 5 (hMlarge 5 (by omega))]
  have c2 : ¬(s.DT ≤ 5) := by omega
  simp [hrun, hHI, PULSE_WIDTH, c2]

/-- Concrete state for the C6 witness: a pulse just asserted at clock 0. -/
def wC6 : St :=
  { DT := 1000, T_meas := none, f_running := true, t_start := 0,
    pulse_idx := 1, f_HI := true, t_HI := 0 }

/-- Witness for the amended C6 at a concrete input. -/
theorem C6_witness :
    tick ((0 + 1) % M) wC6 = (wC6, []) ∧
    tick ((0 + 2) % M) wC6 = (wC6, []) ∧
    tick ((0 + 3) % M) wC6 = (wC6, []) ∧
    tick ((0 + 4) % M) wC6 = (wC6, []) ∧
    tick ((0 + 5) % M) wC6 = ({ wC6 with f_HI := false }, [Ev.deassert]) :=
  C6_pulse_width_exact wC6 0 rfl rfl rfl (by norm_num [wC6]) rfl

/-- Claim C9: both setters clamp their unsigned argument into
`[10, 2^32 - 1]` and store it, with no error or rejection path; in
particular `set_DT 3` stores `DT = 10`. -/
theorem C9_setters_clamp (s : St) (v d : Nat) (hv : v < M) (hd : s.T_meas = some d) :
    (set_DT v s).DT = min (max v 10) (M - 1) ∧
    (set_T v s).T_meas = some (min (max v 10) (M - 1)) ∧
    (set_DT 3 s).DT = 10 := by
  have hmod : v % M = v := Nat.mod_eq_of_lt hv
  have hcl : constrain (v % M) 10 (M - 1) = min (max v 10) (M - 1) := by
    rw [hmod]
    simp only [constrain, M]
    split_ifs <;> omega
  refine ⟨hcl, ?_, ?_⟩
  · obtain ⟨dt, tm, fr, ts, pi, fh, th⟩ := s
    simp only [set_T]
    simp only [St.T_meas] at hd
    rw [hd]
    simp [hcl]
  · norm_num [set_DT, constrain, M]

/-- Witness for C9 at a concrete input. -/
theorem C9_witness :
    (set_DT 3 (init true)).DT = min (max 3 10) (M - 1) ∧
    (set_T 3 (init true)).T_meas = some (min (max 3 10) (M - 1)) ∧
    (set_DT 3 (init true)).DT = 10 :=
  C9_setters_clamp (init true) 3 28800000 (by norm_num [M]) rfl

/-- Concrete state for the C8 witness: a running, asserted train. -/
def wC8 : St :=
  { DT := 1000, T_meas := none, f_running := true, t_start := 5,
    pulse_idx := 2, f_HI := true, t_HI := 5 }

/-- Witness for C8 at a concrete input: stop, then a tick — the output
stays de-asserted and nothing is asserted. -/
theorem C8_witness :
    (runA (op_stop wC8).1 [Act.tick 9]).1.f_HI = false ∧
    countAsserts (runA (op_stop wC8).1 [Act.tick 9]).2 = 0 :=
  ⟨(C8_idle_never_asserted false wC8 9 3 [Act.tick 9] (by decide) (by decide)).2.2.2.2.2.2.1,
   (C8_idle_never_asserted false wC8 9 3 [Act.tick 9] (by decide) (by decide)).2.2.2.2.2.2.2⟩

end TriggerBox
